import Mathlib

/-!
Verification development for the LookIn attendance system.

The frontend (Next.js, under `src/frontend`) is embedded directly from the
TypeScript source.  The FastAPI backend is not part of the source tree; the
components it implements (Attendance Ledger, Face Matcher, Biometric Store,
Job Orchestrator, Alumni Cleanup) are modelled from the specification, as
marked on each definition.
-/

namespace LookIn

/-! ## Attendance Ledger data model -/

/-- Attendance status of a record, `present` or `absent`. -/
inductive AStatus
  | present
  | absent
  deriving DecidableEq, Repr

/-- Modelled from the spec: one row of the Attendance Ledger
(`AttendanceRecord` in §3; mirrored by the TypeScript interface of the same
name in `lib/api`).  `time` is the time-of-day of the logged event, encoded
as a number so the roster can be ordered by it. -/
structure AttendanceRec where
  student_id : String
  student_name : String
  division : Option String
  date : String
  time : Nat
  status : AStatus
  deriving DecidableEq, Repr

/-- The Attendance Ledger: the per-date collection of attendance rows
(backed by `attendance_logs.csv` upstream). -/
abbrev Ledger := List AttendanceRec

/-- Does the ledger already hold a row for the `(student_id, date)` key? -/
def hasKey (l : Ledger) (sid date : String) : Bool :=
  l.any fun r => r.student_id == sid && r.date == date

/-- Every `(student_id, date)` key occurs at most once in the ledger. -/
def keyUnique : Ledger → Bool
  | [] => true
  | r :: rs => (!hasKey rs r.student_id r.date) && keyUnique rs

/-- Modelled from the spec: `upsertPresent(student_id, name, division, date,
time)` of the Attendance Ledger (§4.5) — writes a `present` row if the key is
absent, otherwise leaves the existing record alone. -/
def upsertPresent (sid name : String) (div : Option String) (date : String)
    (t : Nat) (l : Ledger) : Ledger :=
  if hasKey l sid date then l
  else l ++ [⟨sid, name, div, date, t, AStatus.present⟩]

/-- Modelled from the spec: `setStatus(student_id, name, division, date,
status)` of the Attendance Ledger (§4.5), used by Manual Override — always
overwrites the row for the key. -/
def setStatus (sid name : String) (div : Option String) (date : String)
    (t : Nat) (status : AStatus) (l : Ledger) : Ledger :=
  l.filter (fun r => !(r.student_id == sid && r.date == date)) ++
    [⟨sid, name, div, date, t, status⟩]

/-- Modelled from the spec: `deleteForStudents(student_ids)` of the
Attendance Ledger (§4.5) — removes all historical rows for the given
identities across all dates. -/
def deleteForStudents (sids : List String) (l : Ledger) : Ledger :=
  l.filter fun r => !sids.contains r.student_id

/-- Insertion of a row into a list sorted by `time` ascending. -/
def insertByTime (r : AttendanceRec) : Ledger → Ledger
  | [] => [r]
  | x :: xs => if r.time ≤ x.time then r :: x :: xs else x :: insertByTime r xs

/-- Sort a ledger fragment by `time` ascending (insertion sort). -/
def sortByTime : Ledger → Ledger
  | [] => []
  | x :: xs => insertByTime x (sortByTime xs)

/-- Modelled from the spec: `query(date)` of the Attendance Ledger (§4.5) —
the rows of the given date ordered by `time` ascending (daily roster view). -/
def query (date : String) (l : Ledger) : Ledger :=
  sortByTime (l.filter fun r => r.date == date)

/-- Status shown for a student on the roster query of a date. -/
def rosterStatus (date sid : String) (l : Ledger) : Option AStatus :=
  ((query date l).find? fun r => r.student_id == sid).map (·.status)

/-- One attendance write: a pipeline match or a manual override. -/
inductive WriteOp
  | pipelineMatch (sid name : String) (div : Option String) (date : String) (t : Nat)
  | manualOverride (sid name : String) (div : Option String) (date : String)
      (t : Nat) (status : AStatus)

/-- Apply one attendance write to the ledger: pipeline matches go through
`upsertPresent`, manual overrides through `setStatus`. -/
def applyWrite (l : Ledger) : WriteOp → Ledger
  | .pipelineMatch sid name div date t => upsertPresent sid name div date t l
  | .manualOverride sid name div date t status => setStatus sid name div date t status l

/-- Apply a sequence of attendance writes in order. -/
def applyWrites (l : Ledger) (ops : List WriteOp) : Ledger :=
  ops.foldl applyWrite l

/-! ### Ledger lemmas -/

theorem hasKey_append (l₁ l₂ : Ledger) (sid date : String) :
    hasKey (l₁ ++ l₂) sid date = (hasKey l₁ sid date || hasKey l₂ sid date) := by
  simp [hasKey, List.any_append]

theorem hasKey_filter_le (p : AttendanceRec → Bool) (l : Ledger) (sid date : String)
    (h : hasKey (l.filter p) sid date = true) : hasKey l sid date = true := by
  simp only [hasKey, List.any_eq_true] at h ⊢
  obtain ⟨r, hr, hmatch⟩ := h
  exact ⟨r, (List.mem_filter.mp hr).1, hmatch⟩

theorem keyUnique_filter (p : AttendanceRec → Bool) (l : Ledger)
    (h : keyUnique l = true) : keyUnique (l.filter p) = true := by
  induction l with
  | nil => simp [keyUnique]
  | cons r rs ih =>
    simp only [keyUnique, Bool.and_eq_true, Bool.not_eq_true'] at h
    by_cases hp : p r = true
    · simp only [List.filter_cons, hp, if_pos, keyUnique, Bool.and_eq_true,
        Bool.not_eq_true']
      refine ⟨?_, ih h.2⟩
      cases hk : hasKey (rs.filter p) r.student_id r.date with
      | false => rfl
      | true => exact absurd (hasKey_filter_le p rs _ _ hk) (by simp [h.1])
    · simp only [List.filter_cons, hp, if_neg, ite_false]
      exact ih h.2

theorem keyUnique_append_single (l : Ledger) (r : AttendanceRec)
    (hU : keyUnique l = true) (hK : hasKey l r.student_id r.date = false) :
    keyUnique (l ++ [r]) = true := by
  induction l with
  | nil => simp [keyUnique, hasKey]
  | cons x xs ih =>
    simp only [keyUnique, Bool.and_eq_true, Bool.not_eq_true'] at hU
    simp only [hasKey, List.any_cons, Bool.or_eq_false_iff] at hK
    simp only [List.cons_append, keyUnique, Bool.and_eq_true, Bool.not_eq_true']
    refine ⟨?_, ih hU.2 (by simp [hasKey, hK.2])⟩
    rw [List.append_eq, hasKey_append, hU.1, Bool.false_or]
    have hsym : (r.student_id == x.student_id && r.date == x.date) = false := by
      cases hx : (r.student_id == x.student_id && r.date == x.date) with
      | false => rfl
      | true =>
        exfalso
        rw [Bool.and_eq_true, beq_iff_eq, beq_iff_eq] at hx
        rw [hx.1, hx.2] at hK
        simp at hK
    simp [hasKey, hsym]

theorem keyUnique_upsertPresent (sid name : String) (div : Option String)
    (date : String) (t : Nat) (l : Ledger) (hU : keyUnique l = true) :
    keyUnique (upsertPresent sid name div date t l) = true := by
  unfold upsertPresent
  by_cases h : hasKey l sid date = true
  · simp [h, hU]
  · simp only [Bool.not_eq_true] at h
    simp only [h, ite_false]
    exact keyUnique_append_single l _ hU h

theorem hasKey_setStatus_filter (sid date : String) (l : Ledger) :
    hasKey (l.filter fun r => !(r.student_id == sid && r.date == date)) sid date
      = false := by
  simp only [hasKey, List.any_eq_true, not_exists]
  cases h : (l.filter fun r => !(r.student_id == sid && r.date == date)).any
      fun r => r.student_id == sid && r.date == date with
  | false => rfl
  | true =>
    exfalso
    simp only [List.any_eq_true] at h
    obtain ⟨r, hr, hm⟩ := h
    have := (List.mem_filter.mp hr).2
    rw [hm] at this
    simp at this

theorem keyUnique_setStatus (sid name : String) (div : Option String)
    (date : String) (t : Nat) (status : AStatus) (l : Ledger)
    (hU : keyUnique l = true) :
    keyUnique (setStatus sid name div date t status l) = true := by
  unfold setStatus
  exact keyUnique_append_single _ _
    (keyUnique_filter _ _ hU) (hasKey_setStatus_filter sid date l)

theorem keyUnique_applyWrite (l : Ledger) (op : WriteOp) (hU : keyUnique l = true) :
    keyUnique (applyWrite l op) = true := by
  cases op with
  | pipelineMatch sid name div date t => exact keyUnique_upsertPresent _ _ _ _ _ _ hU
  | manualOverride sid name div date t status => exact keyUnique_setStatus _ _ _ _ _ _ _ hU

theorem keyUnique_applyWrites (l : Ledger) (ops : List WriteOp)
    (hU : keyUnique l = true) : keyUnique (applyWrites l ops) = true := by
  induction ops generalizing l with
  | nil => exact hU
  | cons op ops ih => exact ih _ (keyUnique_applyWrite l op hU)

theorem upsertPresent_of_hasKey (sid name : String) (div : Option String)
    (date : String) (t : Nat) (l : Ledger) (h : hasKey l sid date = true) :
    upsertPresent sid name div date t l = l := by
  simp [upsertPresent, h]

/-! ## Biometric Store and Face Matcher -/

/-- Modelled from the spec: a `StudentRecord` of the Biometric Store (§3) —
profile fields plus the ordered sequence of enrolled embedding vectors.  The
embedding type is abstract, as the encoding algorithm is a capability
boundary (§1). -/
structure StudentRecord (α : Type) where
  student_id : String
  name : String
  division : Option String
  graduation_year : Option Int
  embeddings : List α
  deriving DecidableEq, Repr

/-- The Biometric Store: the per-student collection of enrolled embeddings,
backed by `students_biometrics.json` upstream. -/
abbrev BioStore (α : Type) := List (StudentRecord α)

/-- All embeddings stored for a given student id. -/
def embeddingsOf {α : Type} (sid : String) (store : BioStore α) : List α :=
  store.flatMap fun s => if s.student_id == sid then s.embeddings else []

/-- Profile name recorded for a student id (empty when unknown). -/
def nameOf {α : Type} (sid : String) (store : BioStore α) : String :=
  ((store.find? fun s => s.student_id == sid).map (·.name)).getD ""

/-- Division recorded for a student id. -/
def divisionOf {α : Type} (sid : String) (store : BioStore α) : Option String :=
  (store.find? fun s => s.student_id == sid).bind (·.division)

/-- Classification outcome of one face embedding (§4.3); `γ` is the
ordered codomain of the distance capability. -/
inductive Classification (γ : Type)
  | Matched (student_id : String) (distance : γ)
  | Unknown
  deriving DecidableEq, Repr

/-- Modelled from the spec: the default match distance threshold
`MATCH_THRESHOLD` (§4.3), 0.5. -/
def MATCH_THRESHOLD : ℚ := 1 / 2

/-- All `(student_id, distance)` candidate pairs for one probe embedding:
the distance of the probe to every embedding of every enrolled student. -/
def candidates {α γ : Type} (d : α → α → γ) (e : α) (store : BioStore α) :
    List (String × γ) :=
  store.flatMap fun s => s.embeddings.map fun emb => (s.student_id, d e emb)

/-- The better of two candidates: strictly smaller distance wins, a tie is
broken towards the lexicographically smaller student id (§4.3). -/
def better {γ : Type} [LinearOrder γ] (a b : String × γ) : String × γ :=
  if b.2 < a.2 then b else if a.2 < b.2 then a else if a.1 ≤ b.1 then a else b

/-- The global minimum-distance candidate, when the store has any embedding. -/
def bestCandidate {γ : Type} [LinearOrder γ] :
    List (String × γ) → Option (String × γ)
  | [] => none
  | c :: cs => some (cs.foldl better c)

/-- Modelled from the spec: `classify(embedding, store)` of the Face Matcher
(§4.3) — Matched to the globally closest student when the minimum distance
is at most the threshold, Unknown otherwise. -/
def classify {α γ : Type} [LinearOrder γ] (d : α → α → γ) (θ : γ) (e : α)
    (store : BioStore α) : Classification γ :=
  match bestCandidate (candidates d e store) with
  | none => .Unknown
  | some (sid, dst) => if dst ≤ θ then .Matched sid dst else .Unknown

theorem better_snd {γ : Type} [LinearOrder γ] (a b : String × γ) :
    (better a b).2 = min a.2 b.2 := by
  unfold better
  rcases lt_trichotomy a.2 b.2 with h | h | h
  · rw [if_neg (not_lt.mpr (le_of_lt h)), if_pos h, min_eq_left (le_of_lt h)]
  · rw [if_neg (not_lt.mpr (le_of_eq h.symm)), if_neg (not_lt.mpr (le_of_eq h))]
    by_cases hs : a.1 ≤ b.1
    · rw [if_pos hs, min_eq_left (le_of_eq h)]
    · rw [if_neg hs, min_eq_right (le_of_eq h.symm)]
  · rw [if_pos h, min_eq_right (le_of_lt h)]

theorem foldl_better_min {γ : Type} [LinearOrder γ] (cs : List (String × γ))
    (c : String × γ) :
    (cs.foldl better c).2 ≤ c.2 ∧ ∀ x ∈ cs, (cs.foldl better c).2 ≤ x.2 := by
  induction cs generalizing c with
  | nil => exact ⟨le_refl _, by simp⟩
  | cons y ys ih =>
    rw [List.foldl_cons]
    obtain ⟨h1, h2⟩ := ih (better c y)
    have hb := better_snd c y
    refine ⟨le_trans h1 (hb ▸ min_le_left _ _), ?_⟩
    intro x hx
    rcases List.mem_cons.mp hx with rfl | hx
    · exact le_trans h1 (hb ▸ min_le_right _ _)
    · exact h2 x hx

theorem bestCandidate_min {γ : Type} [LinearOrder γ] (l : List (String × γ))
    (c : String × γ)
    (h : bestCandidate l = some c) : ∀ x ∈ l, c.2 ≤ x.2 := by
  cases l with
  | nil => simp [bestCandidate] at h
  | cons y ys =>
    simp only [bestCandidate, Option.some_inj] at h
    subst h
    intro x hx
    rcases List.mem_cons.mp hx with rfl | hx
    · exact (foldl_better_min ys x).1
    · exact (foldl_better_min ys y).2 x hx

/-! ## Job Orchestrator and the processing pipeline -/

/-- Job status values (§3): `queued`, `processing`, `completed`, `failed`. -/
inductive JobStatus
  | queued
  | processing
  | completed
  | failed
  deriving DecidableEq, Repr

/-- Is the status terminal (`completed` or `failed`)? -/
def JobStatus.isTerminal : JobStatus → Bool
  | .completed => true
  | .failed => true
  | _ => false

/-- Modelled from the spec: the `Job` record of the orchestrator (§3) with
its progress counters and accumulated warning strings. -/
structure Job where
  job_id : String
  status : JobStatus
  frames_processed : Nat
  faces_detected : Nat
  students_matched : Nat
  unknown_faces_saved : Nat
  errors : List String
  deriving DecidableEq, Repr

/-- A fresh job as created on upload acceptance: `queued`, zero counters. -/
def mkJob (id : String) : Job :=
  ⟨id, .queued, 0, 0, 0, 0, []⟩

/-- Modelled from the spec: the job state machine of the Job Orchestrator
(§4.1).  `queued` is scheduled to `processing`; while `processing` the
counters grow and warnings accumulate; `processing` finishes to `completed`
or `failed`.  No transition leaves a terminal state. -/
inductive JobTrans : Job → Job → Prop
  | schedule (j : Job) (h : j.status = .queued) :
      JobTrans j { j with status := .processing }
  | progress (j : Job) (h : j.status = .processing) (df dd dm du : Nat)
      (ws : List String) :
      JobTrans j { j with
        frames_processed := j.frames_processed + df,
        faces_detected := j.faces_detected + dd,
        students_matched := j.students_matched + dm,
        unknown_faces_saved := j.unknown_faces_saved + du,
        errors := j.errors ++ ws }
  | complete (j : Job) (h : j.status = .processing) :
      JobTrans j { j with status := .completed }
  | fail (j : Job) (h : j.status = .processing) (msg : String) :
      JobTrans j { j with status := .failed, errors := j.errors ++ [msg] }

/-- In-flight state of one pipeline run: the job being mutated, the set of
student ids already matched in this job (the per-job dedup of §4.3), and the
shared Attendance Ledger. -/
structure PipeState (α : Type) where
  job : Job
  matched : List String
  ledger : Ledger

/-- Modelled from the spec: processing of one face observation by the Face
Matcher (§4.3) — the face counter grows; a Matched embedding triggers one
`upsertPresent` the first time its student is seen in this job and is a
no-op afterwards; an Unknown embedding is archived. -/
def processObs {α γ : Type} [LinearOrder γ] (d : α → α → γ) (θ : γ)
    (store : BioStore α) (date : String) (ts : Nat) (st : PipeState α)
    (e : α) : PipeState α :=
  let st1 : PipeState α :=
    { st with job := { st.job with faces_detected := st.job.faces_detected + 1 } }
  match classify d θ e store with
  | .Matched sid _ =>
      if st1.matched.contains sid then st1
      else
        { st1 with
          matched := sid :: st1.matched,
          job := { st1.job with students_matched := st1.job.students_matched + 1 },
          ledger := upsertPresent sid (nameOf sid store) (divisionOf sid store)
            date ts st1.ledger }
  | .Unknown =>
      { st1 with
        job := { st1.job with
          unknown_faces_saved := st1.job.unknown_faces_saved + 1 } }

/-- Modelled from the spec: processing of one sampled frame — every detected
face observation is classified, then the frame counter grows (§4.1–4.3).
A frame is the pair of its source timestamp and its face embeddings. -/
def processFrame {α γ : Type} [LinearOrder γ] (d : α → α → γ) (θ : γ)
    (store : BioStore α) (date : String) (st : PipeState α)
    (f : Nat × List α) : PipeState α :=
  let st1 := f.2.foldl (processObs d θ store date f.1) st
  { st1 with
    job := { st1.job with frames_processed := st1.job.frames_processed + 1 } }

/-- The pipeline body: fold the frame processor over the sampled frames. -/
def runPipelineCore {α γ : Type} [LinearOrder γ] (d : α → α → γ) (θ : γ)
    (store : BioStore α) (date : String) (fs : List (Nat × List α))
    (st : PipeState α) : PipeState α :=
  fs.foldl (processFrame d θ store date) st

/-- A video as seen by the Frame Sampler (§4.2): either undecodable, or a
finite sequence of sampled `(timestamp, detected face embeddings)` frames. -/
inductive VideoSource (α : Type)
  | undecodable (desc : String)
  | frames (fs : List (Nat × List α))

/-- Modelled from the spec: `run(job_id)` of the Job Orchestrator (§4.1,
§7, §8) — an undecodable video makes the job `failed` with a description in
`errors` and no frame processed; otherwise the pipeline runs over all
sampled frames and the job reaches `completed`. -/
def runJob {α γ : Type} [LinearOrder γ] (d : α → α → γ) (θ : γ)
    (store : BioStore α) (date : String) (v : VideoSource α) (j : Job)
    (l : Ledger) : Job × Ledger :=
  match v with
  | .undecodable desc =>
      ({ j with
          status := .failed,
          errors := j.errors ++ ["Failed to decode video: " ++ desc],
          frames_processed := 0 }, l)
  | .frames fs =>
      let st := runPipelineCore d θ store date fs
        ⟨{ j with status := .processing }, [], l⟩
      ({ st.job with status := .completed }, st.ledger)

/-! ### Pipeline idempotence lemmas -/

/-- Every student id in the job's matched set has a ledger row for the day. -/
def MInv {α : Type} (date : String) (st : PipeState α) : Prop :=
  ∀ sid ∈ st.matched, hasKey st.ledger sid date = true

section PipelineLemmas

variable {α γ : Type} [LinearOrder γ] (d : α → α → γ) (θ : γ)
  (store : BioStore α) (date : String)

theorem hasKey_upsertPresent_self (sid name : String) (div : Option String)
    (dte : String) (t : Nat) (l : Ledger) :
    hasKey (upsertPresent sid name div dte t l) sid dte = true := by
  unfold upsertPresent
  by_cases h : hasKey l sid dte = true
  · rw [if_pos h]; exact h
  · simp only [Bool.not_eq_true] at h
    rw [if_neg (by simp [h]), hasKey_append, h]
    simp [hasKey]

theorem hasKey_upsertPresent_mono (sid name : String) (div : Option String)
    (dte : String) (t : Nat) (l : Ledger) (s2 d2 : String)
    (h : hasKey l s2 d2 = true) :
    hasKey (upsertPresent sid name div dte t l) s2 d2 = true := by
  unfold upsertPresent
  by_cases hk : hasKey l sid dte = true
  · rw [if_pos hk]; exact h
  · simp only [Bool.not_eq_true] at hk
    rw [if_neg (by simp [hk]), hasKey_append, h]
    rfl

theorem processObs_matched_mono {ts : Nat} {st : PipeState α} {e : α}
    {sid : String} (h : sid ∈ st.matched) :
    sid ∈ (processObs d θ store date ts st e).matched := by
  simp only [processObs]
  split
  · split
    · exact h
    · exact List.mem_cons_of_mem _ h
  · exact h

theorem processObs_matched_classified {ts : Nat} {st : PipeState α} {e : α}
    {sid : String} {dst : γ}
    (hc : classify d θ e store = .Matched sid dst) :
    sid ∈ (processObs d θ store date ts st e).matched := by
  simp only [processObs]
  split
  · rename_i s dst2 heq
    rw [hc] at heq
    cases heq
    split
    · rename_i hm; simpa using hm
    · exact List.mem_cons_self sid st.matched
  · rename_i heq
    rw [hc] at heq
    exact absurd heq (by simp)

theorem processObs_hasKey_mono {ts : Nat} {st : PipeState α} {e : α}
    {s2 d2 : String} (h : hasKey st.ledger s2 d2 = true) :
    hasKey (processObs d θ store date ts st e).ledger s2 d2 = true := by
  simp only [processObs]
  split
  · split
    · exact h
    · exact hasKey_upsertPresent_mono _ _ _ date _ _ _ _ h
  · exact h

theorem processObs_MInv {ts : Nat} {st : PipeState α} {e : α}
    (h : MInv date st) : MInv date (processObs d θ store date ts st e) := by
  intro sid hsid
  revert hsid
  simp only [processObs]
  split
  · rename_i s dst2 heq
    split
    · exact fun hs => h sid hs
    · intro hsid
      rcases List.mem_cons.mp hsid with rfl | hsid
      · exact hasKey_upsertPresent_self sid _ _ date _ _
      · exact hasKey_upsertPresent_mono s _ _ date _ _ _ _ (h sid hsid)
  · exact fun hs => h sid hs

theorem foldObs_matched_mono (faces : List α) {ts : Nat} {st : PipeState α}
    {sid : String} (h : sid ∈ st.matched) :
    sid ∈ (faces.foldl (processObs d θ store date ts) st).matched := by
  induction faces generalizing st with
  | nil => exact h
  | cons e es ih =>
    rw [List.foldl_cons]
    exact ih (processObs_matched_mono d θ store date h)

theorem foldObs_MInv (faces : List α) {ts : Nat} {st : PipeState α}
    (h : MInv date st) :
    MInv date (faces.foldl (processObs d θ store date ts) st) := by
  induction faces generalizing st with
  | nil => exact h
  | cons e es ih =>
    rw [List.foldl_cons]
    exact ih (processObs_MInv d θ store date h)

theorem foldObs_classified (faces : List α) {ts : Nat} {st : PipeState α}
    {e : α} {sid : String} {dst : γ} (he : e ∈ faces)
    (hc : classify d θ e store = .Matched sid dst) :
    sid ∈ (faces.foldl (processObs d θ store date ts) st).matched := by
  induction faces generalizing st with
  | nil => cases he
  | cons f fs ih =>
    rw [List.foldl_cons]
    rcases List.mem_cons.mp he with rfl | he
    · exact foldObs_matched_mono d θ store date fs
        (processObs_matched_classified d θ store date hc)
    · exact ih he

theorem processFrame_matched_mono {st : PipeState α} {f : Nat × List α}
    {sid : String} (h : sid ∈ st.matched) :
    sid ∈ (processFrame d θ store date st f).matched := by
  simp only [processFrame]
  exact foldObs_matched_mono d θ store date f.2 h

theorem processFrame_MInv {st : PipeState α} {f : Nat × List α}
    (h : MInv date st) : MInv date (processFrame d θ store date st f) := by
  intro sid hsid
  exact foldObs_MInv d θ store date f.2 h sid hsid

theorem processFrame_classified {st : PipeState α} {f : Nat × List α}
    {e : α} {sid : String} {dst : γ} (he : e ∈ f.2)
    (hc : classify d θ e store = .Matched sid dst) :
    sid ∈ (processFrame d θ store date st f).matched := by
  simp only [processFrame]
  exact foldObs_classified d θ store date f.2 he hc

theorem runCore_matched_mono (fs : List (Nat × List α)) {st : PipeState α}
    {sid : String} (h : sid ∈ st.matched) :
    sid ∈ (runPipelineCore d θ store date fs st).matched := by
  induction fs generalizing st with
  | nil => exact h
  | cons f fs ih =>
    rw [runPipelineCore, List.foldl_cons]
    exact ih (processFrame_matched_mono d θ store date h)

theorem runCore_MInv (fs : List (Nat × List α)) {st : PipeState α}
    (h : MInv date st) : MInv date (runPipelineCore d θ store date fs st) := by
  induction fs generalizing st with
  | nil => exact h
  | cons f fs ih =>
    rw [runPipelineCore, List.foldl_cons]
    exact ih (processFrame_MInv d θ store date h)

theorem runCore_classified (fs : List (Nat × List α)) {st : PipeState α}
    {f : Nat × List α} {e : α} {sid : String} {dst : γ}
    (hf : f ∈ fs) (he : e ∈ f.2)
    (hc : classify d θ e store = .Matched sid dst) :
    sid ∈ (runPipelineCore d θ store date fs st).matched := by
  induction fs generalizing st with
  | nil => cases hf
  | cons g gs ih =>
    rw [runPipelineCore, List.foldl_cons]
    rcases List.mem_cons.mp hf with rfl | hf
    · exact runCore_matched_mono d θ store date gs
        (processFrame_classified d θ store date he hc)
    · exact ih hf

theorem runCore_covers (fs : List (Nat × List α)) {st : PipeState α}
    (hInv : MInv date st) {f : Nat × List α} {e : α} {sid : String} {dst : γ}
    (hf : f ∈ fs) (he : e ∈ f.2)
    (hc : classify d θ e store = .Matched sid dst) :
    hasKey (runPipelineCore d θ store date fs st).ledger sid date = true :=
  runCore_MInv d θ store date fs hInv sid
    (runCore_classified d θ store date fs hf he hc)

theorem processObs_ledger_fixed {ts : Nat} {st : PipeState α} {e : α}
    (hcov : ∀ sid dst, classify d θ e store = .Matched sid dst →
      hasKey st.ledger sid date = true) :
    (processObs d θ store date ts st e).ledger = st.ledger := by
  simp only [processObs]
  split
  · rename_i s dst2 heq
    split
    · rfl
    · exact upsertPresent_of_hasKey s _ _ date _ _ (hcov s dst2 heq)
  · rfl

theorem foldObs_ledger_fixed (faces : List α) {ts : Nat} {st : PipeState α}
    (hcov : ∀ e ∈ faces, ∀ sid dst, classify d θ e store = .Matched sid dst →
      hasKey st.ledger sid date = true) :
    (faces.foldl (processObs d θ store date ts) st).ledger = st.ledger := by
  induction faces generalizing st with
  | nil => rfl
  | cons e es ih =>
    rw [List.foldl_cons]
    have hfix : (processObs d θ store date ts st e).ledger = st.ledger :=
      processObs_ledger_fixed d θ store date
        (fun sid dst hc => hcov e (List.mem_cons_self e es) sid dst hc)
    rw [ih (fun e' he' sid dst hc => by
      rw [hfix]
      exact hcov e' (List.mem_cons_of_mem e he') sid dst hc)]
    exact hfix

theorem processFrame_ledger_fixed {st : PipeState α} {f : Nat × List α}
    (hcov : ∀ e ∈ f.2, ∀ sid dst, classify d θ e store = .Matched sid dst →
      hasKey st.ledger sid date = true) :
    (processFrame d θ store date st f).ledger = st.ledger := by
  simp only [processFrame]
  exact foldObs_ledger_fixed d θ store date f.2 hcov

theorem runCore_ledger_fixed (fs : List (Nat × List α)) {st : PipeState α}
    (hcov : ∀ f ∈ fs, ∀ e ∈ f.2, ∀ sid dst,
      classify d θ e store = .Matched sid dst →
      hasKey st.ledger sid date = true) :
    (runPipelineCore d θ store date fs st).ledger = st.ledger := by
  induction fs generalizing st with
  | nil => rfl
  | cons g gs ih =>
    rw [runPipelineCore, List.foldl_cons]
    have hfix : (processFrame d θ store date st g).ledger = st.ledger :=
      processFrame_ledger_fixed d θ store date
        (fun e he sid dst hc => hcov g (List.mem_cons_self g gs) e he sid dst hc)
    rw [show (List.foldl (processFrame d θ store date) (processFrame d θ store date st g) gs)
        = runPipelineCore d θ store date gs (processFrame d θ store date st g) from rfl]
    rw [ih (fun f hf e he sid dst hc => by
      rw [hfix]
      exact hcov f (List.mem_cons_of_mem g hf) e he sid dst hc)]
    exact hfix

/-- Running the same video's frames a second time on the same day leaves the
ledger exactly as the first run left it. -/
theorem runJob_frames_ledger_idem (fs : List (Nat × List α)) (l : Ledger)
    (j1 j2 : Job) :
    (runJob d θ store date (.frames fs) j2
        (runJob d θ store date (.frames fs) j1 l).2).2
      = (runJob d θ store date (.frames fs) j1 l).2 := by
  simp only [runJob]
  apply runCore_ledger_fixed
  intro f hf e he sid dst hc
  exact runCore_covers d θ store date fs (fun s hs => absurd hs (List.not_mem_nil s))
    hf he hc

end PipelineLemmas

/-! ### Roster query lemmas -/

theorem mem_insertByTime (r x : AttendanceRec) (l : Ledger) :
    x ∈ insertByTime r l ↔ x = r ∨ x ∈ l := by
  induction l with
  | nil => simp [insertByTime]
  | cons a as ih =>
    unfold insertByTime
    by_cases h : r.time ≤ a.time
    · simp [h]
    · simp only [h, if_false, List.mem_cons, ih]
      tauto

theorem mem_sortByTime (x : AttendanceRec) (l : Ledger) :
    x ∈ sortByTime l ↔ x ∈ l := by
  induction l with
  | nil => simp [sortByTime]
  | cons a as ih =>
    unfold sortByTime
    rw [mem_insertByTime, ih, List.mem_cons]

theorem find?_eq_of_unique (p : AttendanceRec → Bool) (l : Ledger)
    (x : AttendanceRec) (hx : x ∈ l) (hpx : p x = true)
    (huniq : ∀ y ∈ l, p y = true → y = x) : l.find? p = some x := by
  induction l with
  | nil => cases hx
  | cons a as ih =>
    cases hpa : p a with
    | true =>
      have ha : a = x := huniq a (List.mem_cons_self a as) hpa
      rw [List.find?_cons_of_pos as hpa, ha]
    | false =>
      rw [List.find?_cons_of_neg as (by simp [hpa])]
      have hxas : x ∈ as := by
        rcases List.mem_cons.mp hx with rfl | hxas
        · rw [hpa] at hpx; cases hpx
        · exact hxas
      exact ih hxas fun y hy hpy => huniq y (List.mem_cons_of_mem a hy) hpy

/-- After a Manual Override `setStatus`, the roster query of that date shows
exactly the overridden status for the student. -/
theorem rosterStatus_setStatus (sid name : String) (div : Option String)
    (date : String) (t : Nat) (status : AStatus) (l : Ledger) :
    rosterStatus date sid (setStatus sid name div date t status l)
      = some status := by
  unfold rosterStatus
  have hq : (query date (setStatus sid name div date t status l)).find?
      (fun r => r.student_id == sid)
      = some ⟨sid, name, div, date, t, status⟩ := by
    unfold query
    apply find?_eq_of_unique
    · rw [mem_sortByTime, List.mem_filter]
      refine ⟨?_, by simp⟩
      unfold setStatus
      exact List.mem_append_right _ (List.mem_singleton.mpr rfl)
    · simp
    · intro y hy hpy
      rw [mem_sortByTime, List.mem_filter] at hy
      obtain ⟨hyl, hyd⟩ := hy
      rcases List.mem_append.mp hyl with hyf | hys
      · exfalso
        have := (List.mem_filter.mp hyf).2
        simp only [beq_iff_eq] at hpy hyd this
        rw [hpy, hyd] at this
        simp at this
      · exact List.mem_singleton.mp hys
  rw [hq]
  rfl

/-! ## Alumni Cleanup -/

/-- Modelled from the spec: the removal criterion of Alumni Cleanup (§4.6) —
a student is selected only when a graduation year is set and it is at most
the cutoff. -/
def shouldRemove {α : Type} (cutoff : Int) (s : StudentRecord α) : Bool :=
  match s.graduation_year with
  | some y => y ≤ cutoff
  | none => false

/-- The `{removed_count, removed_student_ids}` report of Alumni Cleanup. -/
structure CleanupResult where
  removed_count : Nat
  removed_student_ids : List String
  deriving DecidableEq, Repr

/-- Modelled from the spec: `cleanup(graduation_year_cutoff)` of Alumni
Cleanup (§4.6) — removes every selected student's record (and thereby all
of their embeddings) from the Biometric Store, deletes all of their ledger
rows via `deleteForStudents`, and reports what was removed. -/
def cleanup {α : Type} (cutoff : Int) (store : BioStore α) (l : Ledger) :
    BioStore α × Ledger × CleanupResult :=
  let removed := (store.filter (shouldRemove cutoff)).map (·.student_id)
  (store.filter (fun s => !shouldRemove cutoff s),
   deleteForStudents removed l,
   ⟨removed.length, removed⟩)

theorem mem_removed_iff {α : Type} (cutoff : Int) (store : BioStore α)
    (l : Ledger) (sid : String) :
    sid ∈ (cleanup cutoff store l).2.2.removed_student_ids
      ↔ ∃ s ∈ store, s.student_id = sid ∧ ∃ y, s.graduation_year = some y
          ∧ y ≤ cutoff := by
  unfold cleanup
  simp only [List.mem_map, List.mem_filter]
  constructor
  · rintro ⟨s, ⟨hs, hrem⟩, rfl⟩
    refine ⟨s, hs, rfl, ?_⟩
    unfold shouldRemove at hrem
    cases hy : s.graduation_year with
    | none => rw [hy] at hrem; cases hrem
    | some y =>
      rw [hy] at hrem
      exact ⟨y, rfl, by simpa using hrem⟩
  · rintro ⟨s, hs, rfl, y, hy, hyc⟩
    exact ⟨s, ⟨hs, by simp [shouldRemove, hy, hyc]⟩, rfl⟩

theorem cleanup_removed_no_embeddings {α : Type} (cutoff : Int)
    (store : BioStore α) (l : Ledger) (s : StudentRecord α) (hs : s ∈ store)
    (hnd : (store.map (·.student_id)).Nodup)
    (hrem : shouldRemove cutoff s = true) :
    embeddingsOf s.student_id (cleanup cutoff store l).1 = [] := by
  unfold cleanup embeddingsOf
  rw [List.flatMap_eq_nil_iff]
  intro x hx
  obtain ⟨hxs, hxkeep⟩ := List.mem_filter.mp hx
  cases hbeq : x.student_id == s.student_id with
  | false => simp [hbeq]
  | true =>
    exfalso
    have hxe : x = s :=
      List.inj_on_of_nodup_map hnd hxs hs (by simpa using hbeq)
    rw [hxe, hrem] at hxkeep
    cases hxkeep

theorem cleanup_removed_no_rows {α : Type} (cutoff : Int) (store : BioStore α)
    (l : Ledger) (s : StudentRecord α) (r : AttendanceRec) (hs : s ∈ store)
    (hrem : shouldRemove cutoff s = true) (hr : r.student_id = s.student_id) :
    r ∉ (cleanup cutoff store l).2.1 := by
  unfold cleanup deleteForStudents
  intro hmem
  have hkeep := (List.mem_filter.mp hmem).2
  have hin : r.student_id ∈ (store.filter (shouldRemove cutoff)).map
      (·.student_id) :=
    List.mem_map.mpr ⟨s, List.mem_filter.mpr ⟨hs, hrem⟩, hr.symm⟩
  rw [Bool.not_eq_true', List.contains_eq_any_beq] at hkeep
  simp only [List.any_eq_false, beq_iff_eq] at hkeep
  exact hkeep r.student_id hin rfl

theorem cleanup_untouched {α : Type} (cutoff : Int) (store : BioStore α)
    (l : Ledger) (s : StudentRecord α) (r : AttendanceRec) (hs : s ∈ store)
    (hnd : (store.map (·.student_id)).Nodup)
    (hnone : s.graduation_year = none) (hr : r ∈ l)
    (hrs : r.student_id = s.student_id) :
    s ∈ (cleanup cutoff store l).1
    ∧ s.student_id ∉ (cleanup cutoff store l).2.2.removed_student_ids
    ∧ r ∈ (cleanup cutoff store l).2.1 := by
  have hsk : shouldRemove cutoff s = false := by simp [shouldRemove, hnone]
  have hnotrem : s.student_id ∉
      ((store.filter (shouldRemove cutoff)).map (·.student_id)) := by
    intro hmem
    obtain ⟨s2, hs2, hs2id⟩ := List.mem_map.mp hmem
    obtain ⟨hs2s, hs2rem⟩ := List.mem_filter.mp hs2
    have : s2 = s := List.inj_on_of_nodup_map hnd hs2s hs hs2id
    rw [this, hsk] at hs2rem
    cases hs2rem
  refine ⟨List.mem_filter.mpr ⟨hs, by simp [hsk]⟩, hnotrem, ?_⟩
  unfold cleanup deleteForStudents
  apply List.mem_filter.mpr
  refine ⟨hr, ?_⟩
  rw [Bool.not_eq_true', List.contains_eq_any_beq]
  simp only [List.any_eq_false, beq_iff_eq]
  intro x hx hxr
  rw [← hxr] at hx
  rw [hrs] at hx
  exact hnotrem hx

theorem cleanup_count (cutoff : Int) {α : Type} (store : BioStore α)
    (l : Ledger) :
    (cleanup cutoff store l).2.2.removed_count
      = (cleanup cutoff store l).2.2.removed_student_ids.length := rfl

/-! ## Enrollment (Biometric Store write side) -/

/-- Modelled from the spec: `enroll(student_id, profile, embeddings)` of the
Biometric Store (§4.4) — fails with a `ValidationError` when the embeddings
list is empty; otherwise appends the embeddings to an existing student or
creates a new record, answering the number of encodings stored. -/
def enroll {α : Type} (sid name : String) (division : Option String)
    (gradYear : Option Int) (embeddings : List α) (store : BioStore α) :
    Except String (BioStore α × Nat) :=
  if embeddings.isEmpty then
    Except.error "ValidationError: embeddings must not be empty"
  else if store.any (fun s => s.student_id == sid) then
    Except.ok
      (store.map fun s =>
        if s.student_id == sid then
          { s with embeddings := s.embeddings ++ embeddings }
        else s,
       embeddings.length)
  else
    Except.ok (store ++ [⟨sid, name, division, gradYear, embeddings⟩],
      embeddings.length)

theorem embeddingsOf_append (sid : String) {α : Type}
    (st1 st2 : BioStore α) :
    embeddingsOf sid (st1 ++ st2)
      = embeddingsOf sid st1 ++ embeddingsOf sid st2 := by
  unfold embeddingsOf
  rw [List.flatMap_append]

theorem embeddingsOf_not_present (sid : String) {α : Type} (st : BioStore α)
    (h : ∀ s ∈ st, s.student_id ≠ sid) : embeddingsOf sid st = [] := by
  unfold embeddingsOf
  rw [List.flatMap_eq_nil_iff]
  intro s hs
  simp [h s hs]

theorem embeddingsOf_map_append {α : Type} (sid : String) (embs : List α) :
    ∀ store : BioStore α, (store.map (·.student_id)).Nodup →
      store.any (fun s => s.student_id == sid) = true →
      embeddingsOf sid (store.map fun s =>
          if s.student_id == sid then
            { s with embeddings := s.embeddings ++ embs }
          else s)
        = embeddingsOf sid store ++ embs := by
  intro store
  induction store with
  | nil => intro _ hin; cases hin
  | cons s rest ih =>
    intro hnd hin
    have hndr : (rest.map (·.student_id)).Nodup :=
      (List.nodup_cons.mp (by simpa using hnd)).2
    cases hbeq : s.student_id == sid with
    | false =>
      have hinr : rest.any (fun x => x.student_id == sid) = true := by
        rw [List.any_cons, hbeq, Bool.false_or] at hin
        exact hin
      unfold embeddingsOf
      simp only [List.map_cons, List.flatMap_cons, hbeq, Bool.false_eq_true,
        if_false, List.nil_append]
      exact ih hndr hinr
    | true =>
      have hd : s.student_id ∉ rest.map (·.student_id) :=
        (List.nodup_cons.mp (by simpa using hnd)).1
      have hrest : ∀ x ∈ rest, x.student_id ≠ sid := by
        intro x hx heq
        apply hd
        rw [beq_iff_eq.mp hbeq, ← heq]
        exact List.mem_map.mpr ⟨x, hx, rfl⟩
      have h1 : embeddingsOf sid rest = [] :=
        embeddingsOf_not_present sid rest hrest
      have h2 : embeddingsOf sid (rest.map fun x =>
          if x.student_id == sid then
            { x with embeddings := x.embeddings ++ embs }
          else x) = [] := by
        apply embeddingsOf_not_present
        intro x hx
        obtain ⟨x0, hx0, hx0e⟩ := List.mem_map.mp hx
        cases hb0 : x0.student_id == sid with
        | false =>
          rw [← hx0e]
          simp only [hb0, Bool.false_eq_true, if_false]
          exact hrest x0 hx0
        | true => exact absurd (beq_iff_eq.mp hb0) (hrest x0 hx0)
      unfold embeddingsOf
      unfold embeddingsOf at h1 h2
      simp only [List.map_cons, List.flatMap_cons, hbeq, if_true, h1, h2,
        List.append_nil, List.append_assoc]

theorem enroll_stores_embeddings {α : Type} (sid name : String)
    (division : Option String) (gradYear : Option Int) (embeddings : List α)
    (store : BioStore α) (hnd : (store.map (·.student_id)).Nodup)
    (hne : embeddings.isEmpty = false) :
    ∃ store2, enroll sid name division gradYear embeddings store
        = Except.ok (store2, embeddings.length)
      ∧ embeddingsOf sid store2 = embeddingsOf sid store ++ embeddings := by
  unfold enroll
  rw [hne]
  simp only [Bool.false_eq_true, if_false]
  cases hin : store.any (fun s => s.student_id == sid) with
  | false =>
    refine ⟨store ++ [⟨sid, name, division, gradYear, embeddings⟩], ?_, ?_⟩
    · simp
    · rw [embeddingsOf_append]
      have habs : ∀ s ∈ store, s.student_id ≠ sid := by
        intro s hs heq
        rw [List.any_eq_false] at hin
        exact hin s hs (by simp [heq])
      rw [embeddingsOf_not_present sid store habs]
      simp [embeddingsOf]
  | true =>
    refine ⟨store.map fun s =>
        if s.student_id == sid then
          { s with embeddings := s.embeddings ++ embeddings }
        else s, ?_, ?_⟩
    · simp
    · exact embeddingsOf_map_append sid embeddings store hnd hin

/-! ## Frontend: shared API types (`lib/api`) -/

/-- The field names of the `VideoUploadResponse` interface as declared in
the frontend api module: `success`, `message`, `video_filename`. -/
def VideoUploadResponseFields : List String :=
  ["success", "message", "video_filename"]

/-! ## Frontend: authentication (`components/AuthProvider.tsx`) -/

/-- Leading and trailing whitespace removal on a character list (the
behaviour of JavaScript `String.prototype.trim`). -/
def trimChars (cs : List Char) : List Char :=
  ((cs.dropWhile Char.isWhitespace).reverse.dropWhile Char.isWhitespace).reverse

/-- JavaScript `trim()`, written on the character list so it evaluates. -/
def trimStr (s : String) : String := String.mk (trimChars s.toList)

/-- JavaScript `toLowerCase()` (ASCII case), character by character. -/
def lowerStr (s : String) : String := String.mk (s.toList.map Char.toLower)

/-- Is the string blank, i.e. empty after trimming?  (JavaScript
`!s.trim()`.) -/
def isBlank (s : String) : Bool := (trimChars s.toList).isEmpty

/-- The hardcoded valid username of `AuthProvider.tsx`. -/
def VALID_USERNAME : String := "i2it"

/-- The hardcoded valid password of `AuthProvider.tsx`. -/
def VALID_PASSWORD : String := "student"

/-- Authentication state: the `isAuthenticated` flag and the value stored
under the `lookin_auth` session key. -/
structure AuthState where
  isAuthenticated : Bool
  session : Option String
  deriving DecidableEq, Repr

/-- `login` from `AuthProvider.tsx`: trims and lowercases the username,
trims the password, compares both against the hardcoded pair; on success it
returns no error, authenticates and persists the session flag, otherwise it
returns the error message and leaves the state alone. -/
def login (st : AuthState) (username password : String) :
    Option String × AuthState :=
  if lowerStr (trimStr username) = VALID_USERNAME
      ∧ trimStr password = VALID_PASSWORD
  then (none, ⟨true, some "true"⟩)
  else (some "Invalid username or password.", st)

/-! ## Frontend: upload page (`app/upload/page.tsx`) -/

/-- `ALLOWED_VIDEO_EXTENSIONS` from `upload/page.tsx`. -/
def ALLOWED_VIDEO_EXTENSIONS : List String :=
  [".mp4", ".mpeg", ".mpg", ".avi", ".mov", ".mkv", ".webm", ".m4v", ".3gp",
   ".wmv"]

/-- JavaScript `String.prototype.split` with a one-character separator,
expressed on character lists: the list of separator-free segments, one more
than the number of separators. -/
def splitOnChar (sep : Char) : List Char → List (List Char)
  | [] => [[]]
  | c :: cs =>
    match splitOnChar sep cs with
    | [] => [[]]
    | seg :: rest => if c = sep then [] :: seg :: rest else (c :: seg) :: rest

/-- `isValidVideoFile` from `upload/page.tsx`: prepend `"."` to the
lowercased segment after the last `"."` of the file name
(`file.name.split(".").pop()?.toLowerCase()`) and test membership in the
allowed set. -/
def isValidVideoFile (name : String) : Bool :=
  let ext := String.mk
    ('.' :: ((splitOnChar '.' name.toList).getLastD []).map Char.toLower)
  ALLOWED_VIDEO_EXTENSIONS.contains ext

/-- The final extension of a filename in the usual sense: the segment after
the last `"."`, present only when the name contains a `"."` at all. -/
def fileExtension (name : String) : Option String :=
  if name.toList.contains '.' then
    some (String.mk ((name.toList.reverse.takeWhile fun c => !(c == '.')).reverse))
  else none

/-- Acceptance as the specification sentence words it: the file name has a
final extension and, lowercased and preceded by `"."`, it is an allowed
one; a name without any extension is never accepted. -/
def extensionAccepts (name : String) : Bool :=
  match fileExtension name with
  | some e =>
      ALLOWED_VIDEO_EXTENSIONS.contains
        (String.mk ('.' :: e.toList.map Char.toLower))
  | none => false

/-- The maximal suffix of a character list free of the separator (what the
split-then-pop idiom extracts, also for separator-free inputs). -/
def lastSegment (sep : Char) (cs : List Char) : List Char :=
  (cs.reverse.takeWhile fun c => !(c == sep)).reverse

/-- The upload page's high-level UI status (the `UploadStatus` union type in
`upload/page.tsx`). -/
inductive UploadStatus
  | idle
  | dragging
  | uploading
  | processing
  | success
  | error
  deriving DecidableEq, Repr

/-- The job-status response polled by the upload page.  Modelled from the
spec: the polling interface of §6 plus the `error` field read by
`startPolling`; the api module does not declare this interface. -/
structure JobStatusResponse where
  status : JobStatus
  frames_processed : Nat
  faces_detected : Nat
  students_matched : Nat
  unknown_faces_saved : Nat
  errors : List String
  error : Option String
  deriving DecidableEq, Repr

/-- A file as seen by the upload page: only its name is inspected by the
client-side validation; the size is displayed but never checked. -/
structure VFile where
  name : String
  size : Nat
  deriving DecidableEq, Repr

/-- A network request issued by the upload page. -/
inductive PageRequest
  | uploadVideo (filename : String)
  | jobStatus (job_id : String)
  deriving DecidableEq, Repr

/-- State of the upload page relevant to selection and upload. -/
structure UploadPageState where
  selectedFile : Option VFile
  uploadStatus : UploadStatus
  responseMessage : String
  jobId : Option String
  jobResult : Option JobStatusResponse
  deriving DecidableEq, Repr

/-- `handleFileSelect` from `upload/page.tsx`: an invalid file puts the page
in the error state and clears the selection, a valid one becomes the
selection and resets the result state; either way no network request is
issued (second component). -/
def handleFileSelect (st : UploadPageState) (file : Option VFile) :
    UploadPageState × List PageRequest :=
  match file with
  | none => (st, [])
  | some f =>
    if isValidVideoFile f.name = false then
      ({ st with
          uploadStatus := .error,
          responseMessage := "\"" ++ f.name ++ "\" is not a supported video format. Please upload an MP4, AVI, MOV, MKV, or WebM file.",
          selectedFile := none }, [])
    else
      ({ st with
          selectedFile := some f,
          uploadStatus := .idle,
          responseMessage := "",
          jobResult := none,
          jobId := none }, [])

/-- Runtime shape of a successful upload response as read by
`handleUpload` (`data.job_id` and `data.message`).  Modelled from the spec:
video ingestion returns `{job_id, message}` (§6); the declared
`VideoUploadResponse` interface does not carry `job_id`. -/
structure UploadRuntimeResponse where
  job_id : String
  message : String
  deriving DecidableEq, Repr

/-- `handleUpload` from `upload/page.tsx`, once the fetch has resolved: with
no selection nothing happens; on an ok response the page stores the job id,
enters `processing`, shows the message, and starts polling that job id
(third component); on a failed upload it enters the error state with the
message. -/
def handleUpload (st : UploadPageState)
    (outcome : Except String UploadRuntimeResponse) :
    UploadPageState × Option String :=
  match st.selectedFile with
  | none => (st, none)
  | some _ =>
    let st0 := { st with
      uploadStatus := .uploading, responseMessage := "", jobResult := none }
    match outcome with
    | .ok r =>
        ({ st0 with
            jobId := some r.job_id,
            uploadStatus := .processing,
            responseMessage := r.message }, some r.job_id)
    | .error msg =>
        ({ st0 with uploadStatus := .error, responseMessage := msg }, none)

/-- JavaScript `a || b` for an optional string `a`: the fallback replaces a
missing or empty string. -/
def jsOrElse (o : Option String) (fallback : String) : String :=
  match o with
  | some s => if s = "" then fallback else s
  | none => fallback

/-- The `setInterval` period of `startPolling` in `upload/page.tsx`, in
milliseconds. -/
def POLL_INTERVAL_MS : Nat := 2000

/-- State of the polling loop started by `startPolling`: whether the
interval is still installed, plus the page state it mutates. -/
structure PollMachine where
  active : Bool
  uploadStatus : UploadStatus
  responseMessage : String
  jobResult : Option JobStatusResponse
  deriving DecidableEq, Repr

/-- What one poll tick observes: a non-ok HTTP response, or a parsed
job-status body. -/
inductive PollEvent
  | badResponse
  | ok (r : JobStatusResponse)
  deriving DecidableEq, Repr

/-- One tick of the polling loop of `startPolling` (`upload/page.tsx`).
While the interval is installed every tick issues one status request
(second component); a non-ok response changes nothing; a snapshot is always
recorded, and a terminal one clears the interval and maps `completed` to
the success state and `failed` to the error state with `data.error` (or the
fallback text) displayed.  A cleared interval issues no further request. -/
def pollTick (m : PollMachine) (ev : PollEvent) : PollMachine × Bool :=
  if m.active = false then (m, false)
  else
    match ev with
    | .badResponse => (m, true)
    | .ok r =>
      let m1 := { m with jobResult := some r }
      if r.status = .completed ∨ r.status = .failed then
        ({ m1 with
            active := false,
            uploadStatus :=
              if r.status = .completed then .success else .error,
            responseMessage :=
              if r.status = .failed then
                jsOrElse r.error "Processing failed unexpectedly."
              else m1.responseMessage }, true)
      else (m1, true)

/-- Snapshot of a job as served by the status endpoint; for failed jobs the
`error` field carries the first accumulated error.  Modelled from the spec:
polling returns the latest snapshot of the job's fields (§4.1, §6). -/
def jobSnapshot (j : Job) : JobStatusResponse :=
  ⟨j.status, j.frames_processed, j.faces_detected, j.students_matched,
   j.unknown_faces_saved, j.errors, j.errors.head?⟩

/-! ## Frontend: enrollment form (`app/enroll/page.tsx`) -/

/-- The multipart request built by the enrollment form: trimmed ids, the
optional fields only when non-blank, and one `images` part per photo. -/
structure EnrollRequest (β : Type) where
  student_id : String
  student_name : String
  division : Option String
  graduation_year : Option String
  images : List β
  deriving Repr

/-- `handleSubmit` from `enroll/page.tsx`: no request is sent when the
trimmed student id or name is blank or no photo is attached; otherwise the
request carries the trimmed fields, omits blank optional fields, and
appends every selected photo as an `images` part. -/
def enrollFormSubmit {β : Type} (studentId studentName division
    graduationYear : String) (images : List β) : Option (EnrollRequest β) :=
  if isBlank studentId || isBlank studentName || images.isEmpty then
    none
  else
    some ⟨trimStr studentId, trimStr studentName,
      (if isBlank division then none else some (trimStr division)),
      (if isBlank graduationYear then none else some (trimStr graduationYear)),
      images⟩

/-! ### Lemmas about the split-then-pop extension extraction -/

theorem splitOnChar_ne_nil (sep : Char) (cs : List Char) :
    splitOnChar sep cs ≠ [] := by
  cases cs with
  | nil => simp [splitOnChar]
  | cons c cs =>
    unfold splitOnChar
    cases splitOnChar sep cs with
    | nil => simp
    | cons seg rest =>
      by_cases h : c = sep <;> simp [h]

theorem splitOnChar_cons (sep c : Char) (cs seg : List Char)
    (rest : List (List Char)) (hs : splitOnChar sep cs = seg :: rest) :
    splitOnChar sep (c :: cs)
      = if c = sep then [] :: seg :: rest else (c :: seg) :: rest := by
  unfold splitOnChar
  rw [hs]

theorem getLastD_indep {γ : Type} (l : List γ) (a b : γ) (h : l ≠ []) :
    l.getLastD a = l.getLastD b := by
  cases l with
  | nil => exact absurd rfl h
  | cons x xs => rw [List.getLastD_cons, List.getLastD_cons]

theorem all_takeWhile_eq_self (p : Char → Bool) (xs : List Char)
    (h : xs.all p = true) : xs.takeWhile p = xs := by
  induction xs with
  | nil => rfl
  | cons x xs ih =>
    rw [List.all_cons, Bool.and_eq_true] at h
    rw [List.takeWhile_cons, if_pos h.1, ih h.2]

theorem takeWhile_append_singleton (p : Char → Bool) (xs : List Char)
    (c : Char) :
    (xs ++ [c]).takeWhile p =
      if xs.all p then (if p c then xs ++ [c] else xs)
      else xs.takeWhile p := by
  induction xs with
  | nil =>
    simp only [List.nil_append, List.all_nil, if_true]
    by_cases hc : p c = true
    · rw [List.takeWhile_cons, if_pos hc, if_pos hc]
      rfl
    · rw [List.takeWhile_cons, if_neg hc, if_neg hc]
  | cons x xs ih =>
    by_cases hx : p x = true
    · rw [List.cons_append, List.takeWhile_cons, if_pos hx, ih, List.all_cons,
        hx, Bool.true_and]
      by_cases ha : xs.all p = true
      · rw [if_pos ha, if_pos ha]
        by_cases hc : p c = true
        · rw [if_pos hc, if_pos hc]
        · rw [if_neg hc, if_neg hc]
      · rw [if_neg ha, if_neg ha, List.takeWhile_cons, if_pos hx]
    · rw [List.cons_append, List.takeWhile_cons, if_neg hx, List.all_cons]
      have : (p x && xs.all p) = false := by
        rw [Bool.not_eq_true] at hx
        rw [hx, Bool.false_and]
      rw [if_neg (by simp [this]), List.takeWhile_cons, if_neg hx]

theorem splitOnChar_no_sep (sep : Char) (cs : List Char)
    (h : cs.all (fun c => !(c == sep)) = true) :
    splitOnChar sep cs = [cs] := by
  induction cs with
  | nil => rfl
  | cons c cs ih =>
    rw [List.all_cons, Bool.and_eq_true] at h
    rw [splitOnChar_cons sep c cs cs [] (ih h.2)]
    have hc : ¬ c = sep := by simpa using h.1
    rw [if_neg hc]

theorem splitOnChar_sep_free (sep : Char) (cs seg : List Char)
    (h : splitOnChar sep cs = [seg]) :
    cs.all (fun c => !(c == sep)) = true ∧ seg = cs := by
  induction cs generalizing seg with
  | nil =>
    refine ⟨rfl, ?_⟩
    have : ([[]] : List (List Char)) = [seg] := h
    simpa using this.symm
  | cons c cs ih =>
    obtain ⟨seg2, rest, hs⟩ : ∃ s2 r2, splitOnChar sep cs = s2 :: r2 := by
      cases hsp : splitOnChar sep cs with
      | nil => exact absurd hsp (splitOnChar_ne_nil sep cs)
      | cons a b => exact ⟨a, b, rfl⟩
    rw [splitOnChar_cons sep c cs seg2 rest hs] at h
    by_cases hc : c = sep
    · rw [if_pos hc] at h
      simp at h
    · rw [if_neg hc] at h
      have h1 : c :: seg2 = seg ∧ rest = [] := by
        constructor
        · exact (List.cons.injEq _ _ _ _ ▸ h).1
        · exact (List.cons.injEq _ _ _ _ ▸ h).2
      obtain ⟨hseg, hrest⟩ := h1
      rw [hrest] at hs
      obtain ⟨hall, hseg2⟩ := ih seg2 hs
      subst hseg2
      refine ⟨?_, ?_⟩
      · rw [List.all_cons, hall, Bool.and_true]
        simpa using hc
      · rw [← hseg]

theorem splitOnChar_getLastD (sep : Char) (cs : List Char) :
    (splitOnChar sep cs).getLastD [] = lastSegment sep cs := by
  induction cs with
  | nil => rfl
  | cons c cs ih =>
    obtain ⟨seg, rest, hs⟩ : ∃ s2 r2, splitOnChar sep cs = s2 :: r2 := by
      cases hsp : splitOnChar sep cs with
      | nil => exact absurd hsp (splitOnChar_ne_nil sep cs)
      | cons a b => exact ⟨a, b, rfl⟩
    rw [hs] at ih
    rw [splitOnChar_cons sep c cs seg rest hs]
    unfold lastSegment
    rw [List.reverse_cons, takeWhile_append_singleton]
    by_cases hc : c = sep
    · rw [if_pos hc]
      have hpc : (!(c == sep)) = false := by simp [hc]
      rw [hpc, List.getLastD_cons, ih]
      by_cases ha : cs.reverse.all (fun x => !(x == sep)) = true
      · rw [if_pos ha, if_neg (by simp)]
        unfold lastSegment
        rw [all_takeWhile_eq_self _ _ ha]
      · rw [if_neg ha]
        rfl
    · rw [if_neg hc]
      have hpc : (!(c == sep)) = true := by simpa using hc
      rw [hpc]
      cases rest with
      | nil =>
        obtain ⟨hall, hseg⟩ := splitOnChar_sep_free sep cs seg hs
        have har : cs.reverse.all (fun x => !(x == sep)) = true := by
          rw [List.all_reverse]; exact hall
        rw [if_pos har, if_pos rfl, List.reverse_append, List.reverse_reverse,
          hseg]
        rfl
      | cons r2 rs =>
        have hall : cs.all (fun x => !(x == sep)) = false := by
          cases hA : cs.all (fun x => !(x == sep)) with
          | false => rfl
          | true =>
            exfalso
            have hone := splitOnChar_no_sep sep cs hA
            rw [hone] at hs
            simp at hs
        have har : cs.reverse.all (fun x => !(x == sep)) = false := by
          rw [List.all_reverse]; exact hall
        rw [if_neg (by simp [har])]
        rw [List.getLastD_cons] at ih ⊢
        rw [show (List.takeWhile (fun c => !(c == sep)) cs.reverse).reverse
            = lastSegment sep cs from rfl, ← ih]
        exact getLastD_indep (r2 :: rs) _ _ (by simp)

/-- The split-then-pop acceptance test, characterised on the raw name: the
allowed set is consulted for `"."` followed by the lowercased maximal
`"."`-free suffix of the name (for a dotless name, the whole name). -/
theorem isValidVideoFile_eq_lastSegment (name : String) :
    isValidVideoFile name
      = ALLOWED_VIDEO_EXTENSIONS.contains
          (String.mk ('.' :: (lastSegment '.' name.toList).map Char.toLower)) := by
  unfold isValidVideoFile
  rw [splitOnChar_getLastD]

/-! ## Example data used by the witnesses -/

/-- Example distance capability on rational embeddings: the absolute
difference, written with an explicit comparison so it evaluates. -/
def dEx : ℚ → ℚ → ℚ := fun a b => if a ≤ b then b - a else a - b

/-- Example Biometric Store with two enrolled students. -/
def storeEx : BioStore ℚ :=
  [⟨"S1", "Asha", some "CS-A", some 2026, [0, 3]⟩,
   ⟨"S2", "Ravi", none, none, [10]⟩]

/-- Example integer distance capability (absolute difference), used where
the witness evaluates classification: distances in thousandths, so the
0.5 threshold is the integer 500. -/
def dInt : ℤ → ℤ → ℤ := fun a b => if a ≤ b then b - a else a - b

/-- Example store, embeddings in thousandth units, where the closest
embedding sits exactly on the scaled threshold 500. -/
def storeBoundaryEx : BioStore ℤ :=
  [⟨"S1", "Asha", some "CS-A", some 2026, [500]⟩,
   ⟨"S2", "Ravi", none, none, [2000]⟩]

/-- Example ledger row: S1 marked present on 2025-06-10. -/
def recEx : AttendanceRec :=
  ⟨"S1", "Asha", some "CS-A", "2025-06-10", 540, AStatus.present⟩

/-- Example ledger holding only `recEx`. -/
def ledgerEx : Ledger := [recEx]

/-- Example sampled video: S1 appears twice, one unknown face, one empty
frame. -/
def fsEx : List (Nat × List ℚ) :=
  [(0, [1 / 4]), (1, [1 / 4, 9]), (2, [])]

/-- Example write sequence: one pipeline match and one manual override. -/
def opsEx : List WriteOp :=
  [.pipelineMatch "S2" "Ravi" none "2025-06-10" 541,
   .manualOverride "S1" "Asha" none "2025-06-10" 600 AStatus.absent]

/-! ## Claim theorems -/

/-- C1: over every sequence of attendance writes (pipeline matches and
manual overrides) the ledger keeps at most one record per
(`student_id`, `date`) key; a pipeline `upsertPresent` against a student
already marked for the day is a no-op that preserves the existing record
and its first-seen time; and running the same video's frames twice on the
same day leaves the ledger of the first run unchanged, so no duplicate
records can arise. -/
theorem ledger_unique_and_pipeline_idempotent {α γ : Type} [LinearOrder γ]
    (d : α → α → γ) (θ : γ) (store : BioStore α) (date : String)
    (fs : List (Nat × List α))
    (ops : List WriteOp) (l0 : Ledger) (sid name : String)
    (div : Option String) (t : Nat) (j1 j2 : Job)
    (hU : keyUnique l0 = true) (hK : hasKey l0 sid date = true) :
    keyUnique (applyWrites l0 ops) = true
    ∧ upsertPresent sid name div date t l0 = l0
    ∧ (runJob d θ store date (.frames fs) j2
          (runJob d θ store date (.frames fs) j1 l0).2).2
        = (runJob d θ store date (.frames fs) j1 l0).2 :=
  ⟨keyUnique_applyWrites l0 ops hU,
   upsertPresent_of_hasKey sid name div date t l0 hK,
   runJob_frames_ledger_idem d θ store date fs l0 j1 j2⟩

theorem ledger_unique_and_pipeline_idempotent_witness :
    keyUnique (applyWrites ledgerEx opsEx) = true
    ∧ upsertPresent "S1" "Asha" (some "CS-A") "2025-06-10" 999 ledgerEx
        = ledgerEx
    ∧ (runJob dEx MATCH_THRESHOLD storeEx "2025-06-10" (.frames fsEx)
          (mkJob "j2")
          (runJob dEx MATCH_THRESHOLD storeEx "2025-06-10" (.frames fsEx)
            (mkJob "j1") ledgerEx).2).2
        = (runJob dEx MATCH_THRESHOLD storeEx "2025-06-10" (.frames fsEx)
            (mkJob "j1") ledgerEx).2 :=
  ledger_unique_and_pipeline_idempotent dEx MATCH_THRESHOLD storeEx
    "2025-06-10" fsEx opsEx ledgerEx "S1" "Asha" (some "CS-A") 999
    (mkJob "j1") (mkJob "j2") (by decide) (by decide)

/-- C2: classification is by global minimum distance — when the probe has
any candidate, the candidate chosen by the fold is a lower bound of every
candidate distance, the result is Matched to it exactly when its distance
is at most the threshold, and Unknown exactly when strictly greater; so a
distance exactly equal to the threshold is Matched. -/
theorem classify_threshold_boundary {α γ : Type} [LinearOrder γ]
    (d : α → α → γ) (θ : γ) (e : α) (store : BioStore α) (c : String × γ)
    (hb : bestCandidate (candidates d e store) = some c) :
    ((candidates d e store).all fun x => decide (c.2 ≤ x.2)) = true
    ∧ (classify d θ e store = .Matched c.1 c.2 ↔ c.2 ≤ θ)
    ∧ (classify d θ e store = .Unknown ↔ θ < c.2)
    ∧ MATCH_THRESHOLD = 1 / 2 := by
  obtain ⟨s, q⟩ := c
  refine ⟨?_, ?_, ?_, rfl⟩
  · rw [List.all_eq_true]
    intro x hx
    simpa using bestCandidate_min _ _ hb x hx
  · unfold classify
    rw [hb]
    show (if q ≤ θ then Classification.Matched s q else Classification.Unknown)
        = Classification.Matched s q ↔ q ≤ θ
    by_cases hle : q ≤ θ
    · rw [if_pos hle]
      exact ⟨fun _ => hle, fun _ => rfl⟩
    · rw [if_neg hle]
      exact ⟨fun h => absurd h (by simp), fun h => absurd h hle⟩
  · unfold classify
    rw [hb]
    show (if q ≤ θ then Classification.Matched s q else Classification.Unknown)
        = Classification.Unknown ↔ θ < q
    by_cases hle : q ≤ θ
    · rw [if_pos hle]
      exact ⟨fun h => absurd h (by simp), fun h => absurd hle (not_le.mpr h)⟩
    · rw [if_neg hle]
      exact ⟨fun _ => not_le.mp hle, fun _ => rfl⟩

theorem classify_threshold_boundary_witness :
    ((candidates dInt (0 : ℤ) storeBoundaryEx).all
        fun x => decide ((("S1", (500 : ℤ)) : String × ℤ).2 ≤ x.2)) = true
    ∧ (classify dInt (500 : ℤ) (0 : ℤ) storeBoundaryEx
          = .Matched (("S1", (500 : ℤ)) : String × ℤ).1
              (("S1", (500 : ℤ)) : String × ℤ).2
        ↔ (("S1", (500 : ℤ)) : String × ℤ).2 ≤ (500 : ℤ))
    ∧ (classify dInt (500 : ℤ) (0 : ℤ) storeBoundaryEx = .Unknown
        ↔ (500 : ℤ) < (("S1", (500 : ℤ)) : String × ℤ).2)
    ∧ MATCH_THRESHOLD = 1 / 2 :=
  classify_threshold_boundary dInt (500 : ℤ) 0 storeBoundaryEx
    ("S1", 500) (by decide)

/-- C3: a Manual Override always overwrites — after a pipeline marks a
student present, an override to absent for the same date makes the roster
query answer absent; `setStatus` yields the overridden status on query
whatever the prior ledger was; a pipeline `upsertPresent` on a key that is
already present leaves the ledger untouched. -/
theorem manual_override_wins (l l2 l3 : Ledger) (sid name name2 name3 : String)
    (div div2 div3 : Option String) (date : String) (t t2 t3 t4 : Nat)
    (status3 : AStatus) (hK : hasKey l2 sid date = true) :
    rosterStatus date sid
        (setStatus sid name2 div2 date t2 AStatus.absent
          (upsertPresent sid name div date t l)) = some AStatus.absent
    ∧ upsertPresent sid name div date t3 l2 = l2
    ∧ rosterStatus date sid (setStatus sid name3 div3 date t4 status3 l3)
        = some status3 :=
  ⟨rosterStatus_setStatus sid name2 div2 date t2 AStatus.absent _,
   upsertPresent_of_hasKey sid name div date t3 l2 hK,
   rosterStatus_setStatus sid name3 div3 date t4 status3 l3⟩

theorem manual_override_wins_witness :
    rosterStatus "2025-06-10" "S1"
        (setStatus "S1" "Asha" none "2025-06-10" 600 AStatus.absent
          (upsertPresent "S1" "Asha" (some "CS-A") "2025-06-10" 540 []))
      = some AStatus.absent
    ∧ upsertPresent "S1" "Asha" (some "CS-A") "2025-06-10" 700 ledgerEx
        = ledgerEx
    ∧ rosterStatus "2025-06-10" "S1"
        (setStatus "S1" "Asha" (some "CS-A") "2025-06-10" 610 AStatus.present
          ledgerEx)
      = some AStatus.present :=
  manual_override_wins [] ledgerEx ledgerEx "S1" "Asha" "Asha" "Asha"
    (some "CS-A") none (some "CS-A") "2025-06-10" 540 600 700 610
    AStatus.present (by decide)

/-- C4: a job status is one of queued, processing, completed, failed, and
no orchestrator transition leaves a terminal status; the upload page polls
on a 2000 ms interval issuing one status request per tick while the
interval is installed; a non-terminal snapshot keeps polling and leaves
the UI status alone; the first completed snapshot stops polling into the
success state; the first failed snapshot stops polling into the error
state with the job's error message displayed; and once stopped a tick
issues no request and changes nothing. -/
theorem polling_terminal_behavior (m n : PollMachine) (ev : PollEvent)
    (rn rc rf : JobStatusResponse) (s : JobStatus) (j j2 : Job)
    (hm : m.active = false) (hn : n.active = true)
    (hrn : rn.status.isTerminal = false)
    (hrc : rc.status = .completed) (hrf : rf.status = .failed)
    (hj : JobTrans j j2) :
    pollTick m ev = (m, false)
    ∧ (pollTick n ev).2 = true
    ∧ (pollTick n (.ok rn)).1.active = true
    ∧ (pollTick n (.ok rn)).1.uploadStatus = n.uploadStatus
    ∧ (pollTick n (.ok rn)).1.jobResult = some rn
    ∧ (pollTick n (.ok rc)).1.active = false
    ∧ (pollTick n (.ok rc)).1.uploadStatus = .success
    ∧ (pollTick n (.ok rf)).1.active = false
    ∧ (pollTick n (.ok rf)).1.uploadStatus = .error
    ∧ (pollTick n (.ok rf)).1.responseMessage
        = jsOrElse rf.error "Processing failed unexpectedly."
    ∧ POLL_INTERVAL_MS = 2000
    ∧ (s = .queued ∨ s = .processing ∨ s = .completed ∨ s = .failed)
    ∧ j.status.isTerminal = false := by
  have hnn : ¬n.active = false := by simp [hn]
  have hnt : ¬(rn.status = JobStatus.completed ∨ rn.status = JobStatus.failed) := by
    intro hcon
    rcases hcon with h | h <;> rw [h] at hrn <;>
      simp [JobStatus.isTerminal] at hrn
  refine ⟨?_, ?_, ?_, ?_, ?_, ?_, ?_, ?_, ?_, ?_, rfl, ?_, ?_⟩
  · unfold pollTick
    rw [if_pos hm]
  · unfold pollTick
    rw [if_neg hnn]
    cases ev with
    | badResponse => rfl
    | ok r =>
      dsimp only
      by_cases ht : r.status = JobStatus.completed ∨ r.status = JobStatus.failed
      · rw [if_pos ht]
      · rw [if_neg ht]
  · unfold pollTick
    rw [if_neg hnn]
    dsimp only
    rw [if_neg hnt]
    exact hn
  · unfold pollTick
    rw [if_neg hnn]
    dsimp only
    rw [if_neg hnt]
  · unfold pollTick
    rw [if_neg hnn]
    dsimp only
    rw [if_neg hnt]
  · unfold pollTick
    rw [if_neg hnn]
    dsimp only
    rw [if_pos (Or.inl hrc)]
  · unfold pollTick
    rw [if_neg hnn]
    dsimp only
    rw [if_pos (Or.inl hrc)]
    show (if rc.status = JobStatus.completed then UploadStatus.success
      else UploadStatus.error) = UploadStatus.success
    rw [if_pos hrc]
  · unfold pollTick
    rw [if_neg hnn]
    dsimp only
    rw [if_pos (Or.inr hrf)]
  · unfold pollTick
    rw [if_neg hnn]
    dsimp only
    rw [if_pos (Or.inr hrf)]
    show (if rf.status = JobStatus.completed then UploadStatus.success
      else UploadStatus.error) = UploadStatus.error
    rw [if_neg (by simp [hrf])]
  · unfold pollTick
    rw [if_neg hnn]
    dsimp only
    rw [if_pos (Or.inr hrf)]
    show (if rf.status = JobStatus.failed then
        jsOrElse rf.error "Processing failed unexpectedly."
      else n.responseMessage)
      = jsOrElse rf.error "Processing failed unexpectedly."
    rw [if_pos hrf]
  · cases s <;> simp
  · cases hj with
    | schedule h => rw [h]; rfl
    | progress h df dd dm du ws => rw [h]; rfl
    | complete h => rw [h]; rfl
    | fail h msg => rw [h]; rfl

/-- Example installed polling machine. -/
def pollEx : PollMachine := ⟨true, UploadStatus.processing, "", none⟩

/-- Example stopped polling machine. -/
def pollStoppedEx : PollMachine := ⟨false, UploadStatus.success, "", none⟩

/-- Example non-terminal, completed and failed job snapshots. -/
def snapProcessingEx : JobStatusResponse :=
  ⟨JobStatus.processing, 3, 2, 1, 0, [], none⟩

/-- Completed snapshot used by the polling witness. -/
def snapCompletedEx : JobStatusResponse :=
  ⟨JobStatus.completed, 5, 4, 2, 1, [], none⟩

/-- Failed snapshot used by the polling witness. -/
def snapFailedEx : JobStatusResponse :=
  ⟨JobStatus.failed, 0, 0, 0, 0, ["boom"], some "boom"⟩

theorem polling_terminal_behavior_witness :
    pollTick pollStoppedEx .badResponse = (pollStoppedEx, false)
    ∧ (pollTick pollEx .badResponse).2 = true
    ∧ (pollTick pollEx (.ok snapProcessingEx)).1.active = true
    ∧ (pollTick pollEx (.ok snapProcessingEx)).1.uploadStatus
        = pollEx.uploadStatus
    ∧ (pollTick pollEx (.ok snapProcessingEx)).1.jobResult
        = some snapProcessingEx
    ∧ (pollTick pollEx (.ok snapCompletedEx)).1.active = false
    ∧ (pollTick pollEx (.ok snapCompletedEx)).1.uploadStatus = .success
    ∧ (pollTick pollEx (.ok snapFailedEx)).1.active = false
    ∧ (pollTick pollEx (.ok snapFailedEx)).1.uploadStatus = .error
    ∧ (pollTick pollEx (.ok snapFailedEx)).1.responseMessage
        = jsOrElse snapFailedEx.error "Processing failed unexpectedly."
    ∧ POLL_INTERVAL_MS = 2000
    ∧ (JobStatus.processing = .queued ∨ JobStatus.processing = .processing
        ∨ JobStatus.processing = .completed ∨ JobStatus.processing = .failed)
    ∧ (mkJob "j1").status.isTerminal = false :=
  polling_terminal_behavior pollStoppedEx pollEx .badResponse
    snapProcessingEx snapCompletedEx snapFailedEx JobStatus.processing
    (mkJob "j1") { mkJob "j1" with status := JobStatus.processing }
    (by decide) (by decide) (by decide) (by decide) (by decide)
    (JobTrans.schedule (mkJob "j1") rfl)

/-- C5: on an accepted upload the page reads `job_id` and `message` from
the parsed body, enters `processing`, and immediately starts polling that
job id; but the `VideoUploadResponse` interface used as the type of that
parsed body does not declare the `job_id` field — it declares only
`success`, `message` and `video_filename`. -/
theorem upload_response_job_id (st : UploadPageState) (f : VFile)
    (r : UploadRuntimeResponse) (hsel : st.selectedFile = some f) :
    (handleUpload st (.ok r)).2 = some r.job_id
    ∧ (handleUpload st (.ok r)).1.uploadStatus = .processing
    ∧ (handleUpload st (.ok r)).1.responseMessage = r.message
    ∧ (handleUpload st (.ok r)).1.jobId = some r.job_id
    ∧ "job_id" ∉ VideoUploadResponseFields
    ∧ "message" ∈ VideoUploadResponseFields := by
  refine ⟨?_, ?_, ?_, ?_, by decide, by decide⟩ <;>
    (unfold handleUpload; rw [hsel])

/-- Example selected file on the upload page. -/
def vfileEx : VFile := ⟨"class.mp4", 1000⟩

/-- Example upload page state with `vfileEx` selected. -/
def upStateEx : UploadPageState := ⟨some vfileEx, .idle, "", none, none⟩

/-- Example accepted upload response body. -/
def upRespEx : UploadRuntimeResponse := ⟨"job-1", "Video uploaded"⟩

theorem upload_response_job_id_witness :
    (handleUpload upStateEx (.ok upRespEx)).2 = some upRespEx.job_id
    ∧ (handleUpload upStateEx (.ok upRespEx)).1.uploadStatus = .processing
    ∧ (handleUpload upStateEx (.ok upRespEx)).1.responseMessage
        = upRespEx.message
    ∧ (handleUpload upStateEx (.ok upRespEx)).1.jobId = some upRespEx.job_id
    ∧ "job_id" ∉ VideoUploadResponseFields
    ∧ "message" ∈ VideoUploadResponseFields :=
  upload_response_job_id upStateEx vfileEx upRespEx (by decide)

/-- C6: alumni cleanup removes exactly the students with a graduation year
at most the cutoff — each such student appears in the report, keeps zero
embeddings and zero ledger rows afterwards; a student with no graduation
year keeps their record and ledger rows and is not reported; the removed
count equals the length of the removed id list; and every reported id
belongs to a stored student with a graduation year at most the cutoff. -/
theorem alumni_cleanup_exact {α : Type} (cutoff : Int) (store : BioStore α)
    (l : Ledger) (s1 s2 : StudentRecord α) (r1 r2 : AttendanceRec) (y : Int)
    (sid : String)
    (hnd : (store.map (·.student_id)).Nodup)
    (hs1 : s1 ∈ store) (hy1 : s1.graduation_year = some y) (hyc : y ≤ cutoff)
    (hs2 : s2 ∈ store) (hnone : s2.graduation_year = none)
    (hr2 : r2 ∈ l) (hr1s : r1.student_id = s1.student_id)
    (hr2s : r2.student_id = s2.student_id)
    (hsid : sid ∈ (cleanup cutoff store l).2.2.removed_student_ids) :
    s1.student_id ∈ (cleanup cutoff store l).2.2.removed_student_ids
    ∧ embeddingsOf s1.student_id (cleanup cutoff store l).1 = []
    ∧ r1 ∉ (cleanup cutoff store l).2.1
    ∧ s2 ∈ (cleanup cutoff store l).1
    ∧ s2.student_id ∉ (cleanup cutoff store l).2.2.removed_student_ids
    ∧ r2 ∈ (cleanup cutoff store l).2.1
    ∧ (cleanup cutoff store l).2.2.removed_count
        = (cleanup cutoff store l).2.2.removed_student_ids.length
    ∧ ∃ s ∈ store, s.student_id = sid
        ∧ ∃ y2, s.graduation_year = some y2 ∧ y2 ≤ cutoff := by
  have hrem : shouldRemove cutoff s1 = true := by
    unfold shouldRemove
    rw [hy1]
    exact decide_eq_true hyc
  obtain ⟨hkeep, hnorep, hrows⟩ :=
    cleanup_untouched cutoff store l s2 r2 hs2 hnd hnone hr2 hr2s
  exact ⟨(mem_removed_iff cutoff store l s1.student_id).mpr
      ⟨s1, hs1, rfl, y, hy1, hyc⟩,
    cleanup_removed_no_embeddings cutoff store l s1 hs1 hnd hrem,
    cleanup_removed_no_rows cutoff store l s1 r1 hs1 hrem hr1s,
    hkeep, hnorep, hrows,
    cleanup_count cutoff store l,
    (mem_removed_iff cutoff store l sid).mp hsid⟩

/-- Example store for the cleanup witness: S1 graduated 2024, S2 has no
graduation year. -/
def cleanupStoreEx : BioStore ℤ :=
  [⟨"S1", "Asha", some "CS-A", some 2024, [1]⟩,
   ⟨"S2", "Ravi", none, none, [2]⟩]

/-- Example ledger rows for the cleanup witness. -/
def cleanupLedgerEx : Ledger :=
  [⟨"S1", "Asha", some "CS-A", "2024-01-01", 100, AStatus.present⟩,
   ⟨"S2", "Ravi", none, "2024-01-01", 200, AStatus.present⟩]

theorem alumni_cleanup_exact_witness :
    ("S1" : String) ∈ (cleanup 2025 cleanupStoreEx cleanupLedgerEx).2.2.removed_student_ids
    ∧ embeddingsOf "S1" (cleanup 2025 cleanupStoreEx cleanupLedgerEx).1 = []
    ∧ (⟨"S1", "Asha", some "CS-A", "2024-01-01", 100, AStatus.present⟩ : AttendanceRec)
        ∉ (cleanup 2025 cleanupStoreEx cleanupLedgerEx).2.1
    ∧ (⟨"S2", "Ravi", none, none, [2]⟩ : StudentRecord ℤ)
        ∈ (cleanup 2025 cleanupStoreEx cleanupLedgerEx).1
    ∧ ("S2" : String) ∉ (cleanup 2025 cleanupStoreEx cleanupLedgerEx).2.2.removed_student_ids
    ∧ (⟨"S2", "Ravi", none, "2024-01-01", 200, AStatus.present⟩ : AttendanceRec)
        ∈ (cleanup 2025 cleanupStoreEx cleanupLedgerEx).2.1
    ∧ (cleanup 2025 cleanupStoreEx cleanupLedgerEx).2.2.removed_count
        = (cleanup 2025 cleanupStoreEx cleanupLedgerEx).2.2.removed_student_ids.length
    ∧ ∃ s ∈ cleanupStoreEx, s.student_id = "S1"
        ∧ ∃ y2, s.graduation_year = some y2 ∧ y2 ≤ 2025 := by
  have h := alumni_cleanup_exact 2025 cleanupStoreEx cleanupLedgerEx
    ⟨"S1", "Asha", some "CS-A", some 2024, [1]⟩
    ⟨"S2", "Ravi", none, none, [2]⟩
    ⟨"S1", "Asha", some "CS-A", "2024-01-01", 100, AStatus.present⟩
    ⟨"S2", "Ravi", none, "2024-01-01", 200, AStatus.present⟩
    2024 "S1" (by decide) (by decide) (by decide) (by decide) (by decide)
    (by decide) (by decide) (by decide) (by decide) (by decide)
  exact h

/-- The failure description of an undecodable video is never the empty
string, so the page displays it rather than the fallback text. -/
theorem decode_msg_ne_empty (desc : String) :
    ¬("Failed to decode video: " ++ desc) = "" := by
  intro h
  have h2 := congrArg String.data h
  rw [String.data_append] at h2
  have h3 : ("Failed to decode video: ").data ++ desc.data = [] := h2
  rw [List.append_eq_nil] at h3
  exact absurd h3.1 (by decide)

/-- C7: an undecodable upload makes the job fail — status `failed`, a
non-empty errors list, zero frames processed, ledger untouched — and the
polling page, on observing that job's snapshot, stops polling in the error
state displaying the failure description. -/
theorem undecodable_video_fails {α γ : Type} [LinearOrder γ]
    (d : α → α → γ) (θ : γ) (store : BioStore α) (date : String)
    (desc id : String) (l : Ledger) (n : PollMachine)
    (hn : n.active = true) :
    (runJob d θ store date (.undecodable desc) (mkJob id) l).1.status = .failed
    ∧ (runJob d θ store date (.undecodable desc) (mkJob id) l).1.errors.isEmpty
        = false
    ∧ (runJob d θ store date (.undecodable desc) (mkJob id) l).1.frames_processed
        = 0
    ∧ (runJob d θ store date (.undecodable desc) (mkJob id) l).2 = l
    ∧ (pollTick n (.ok (jobSnapshot
        (runJob d θ store date (.undecodable desc) (mkJob id) l).1))).1.active
        = false
    ∧ (pollTick n (.ok (jobSnapshot
        (runJob d θ store date (.undecodable desc) (mkJob id) l).1))).1.uploadStatus
        = .error
    ∧ (pollTick n (.ok (jobSnapshot
        (runJob d θ store date (.undecodable desc) (mkJob id) l).1))).1.responseMessage
        = "Failed to decode video: " ++ desc := by
  have hne := decode_msg_ne_empty desc
  have hnn : ¬n.active = false := by simp [hn]
  refine ⟨rfl, rfl, rfl, rfl, ?_, ?_, ?_⟩ <;>
    · unfold pollTick
      rw [if_neg hnn]
      dsimp only
      have hstat : (jobSnapshot
          (runJob d θ store date (.undecodable desc) (mkJob id) l).1).status
            = JobStatus.failed := rfl
      rw [if_pos (Or.inr hstat)]
      try simp [runJob, jobSnapshot, mkJob, jsOrElse, hne]

theorem undecodable_video_fails_witness :
    (runJob dInt 500 storeBoundaryEx "2025-06-10"
        (.undecodable "bad codec") (mkJob "j9") []).1.status = .failed
    ∧ (runJob dInt 500 storeBoundaryEx "2025-06-10"
        (.undecodable "bad codec") (mkJob "j9") []).1.errors.isEmpty = false
    ∧ (runJob dInt 500 storeBoundaryEx "2025-06-10"
        (.undecodable "bad codec") (mkJob "j9") []).1.frames_processed = 0
    ∧ (runJob dInt 500 storeBoundaryEx "2025-06-10"
        (.undecodable "bad codec") (mkJob "j9") []).2 = []
    ∧ (pollTick pollEx (.ok (jobSnapshot
        (runJob dInt 500 storeBoundaryEx "2025-06-10"
          (.undecodable "bad codec") (mkJob "j9") []).1))).1.active = false
    ∧ (pollTick pollEx (.ok (jobSnapshot
        (runJob dInt 500 storeBoundaryEx "2025-06-10"
          (.undecodable "bad codec") (mkJob "j9") []).1))).1.uploadStatus
        = .error
    ∧ (pollTick pollEx (.ok (jobSnapshot
        (runJob dInt 500 storeBoundaryEx "2025-06-10"
          (.undecodable "bad codec") (mkJob "j9") []).1))).1.responseMessage
        = "Failed to decode video: " ++ "bad codec" :=
  undecodable_video_fails dInt 500 storeBoundaryEx "2025-06-10" "bad codec"
    "j9" [] pollEx (by decide)

/-- C8: backend enrollment rejects an empty embeddings list with a
ValidationError and otherwise stores the extracted embeddings, answering
their count; the enrollment form sends no request when the trimmed student
id or name is blank or no photo is attached; a sent request carries the
trimmed id and name, one `images` part per selected photo, and omits the
optional fields exactly when they are blank. -/
theorem enroll_validation_and_form {α β : Type} (sidB nameB : String)
    (divB : Option String) (gy : Option Int) (embs : List α)
    (store : BioStore α) (studentId studentName divBlank divFull gyBlank
    gyFull sid2 name3 : String) (images images2 images3 : List β)
    (hnd : (store.map (·.student_id)).Nodup)
    (hembs : embs.isEmpty = false)
    (h1 : isBlank studentId = false)
    (h2 : isBlank studentName = false)
    (h3 : images.isEmpty = false)
    (hdb : isBlank divBlank = true) (hdf : isBlank divFull = false)
    (hgb : isBlank gyBlank = true) (hgf : isBlank gyFull = false)
    (hblank2 : isBlank sid2 = true) (hblank3 : isBlank name3 = true) :
    enroll sidB nameB divB gy ([] : List α) store
      = Except.error "ValidationError: embeddings must not be empty"
    ∧ (∃ store2, enroll sidB nameB divB gy embs store
          = Except.ok (store2, embs.length)
        ∧ embeddingsOf sidB store2 = embeddingsOf sidB store ++ embs)
    ∧ enrollFormSubmit sid2 studentName divBlank gyBlank images2 = none
    ∧ enrollFormSubmit studentId name3 divBlank gyBlank images3 = none
    ∧ enrollFormSubmit studentId studentName divBlank gyBlank ([] : List β)
        = none
    ∧ enrollFormSubmit studentId studentName divBlank gyBlank images
        = some ⟨trimStr studentId, trimStr studentName, none, none, images⟩
    ∧ enrollFormSubmit studentId studentName divFull gyFull images
        = some ⟨trimStr studentId, trimStr studentName,
            some (trimStr divFull), some (trimStr gyFull), images⟩ := by
  refine ⟨?_, enroll_stores_embeddings sidB nameB divB gy embs store hnd hembs,
    ?_, ?_, ?_, ?_, ?_⟩
  · simp [enroll]
  · simp [enrollFormSubmit, hblank2]
  · simp [enrollFormSubmit, hblank3, h1]
  · simp [enrollFormSubmit]
  · simp [enrollFormSubmit, h1, h2, h3, hdb, hgb]
  · simp [enrollFormSubmit, h1, h2, h3, hdf, hgf]

theorem enroll_validation_and_form_witness :
    enroll "S9" "Bea" none none ([] : List ℤ) cleanupStoreEx
      = Except.error "ValidationError: embeddings must not be empty"
    ∧ (∃ store2, enroll "S9" "Bea" none none ([7] : List ℤ) cleanupStoreEx
          = Except.ok (store2, ([7] : List ℤ).length)
        ∧ embeddingsOf "S9" store2
            = embeddingsOf "S9" cleanupStoreEx ++ [7])
    ∧ enrollFormSubmit "  " "Bea" " " "" ([1] : List ℤ) = none
    ∧ enrollFormSubmit " S9 " " " " " "" ([2] : List ℤ) = none
    ∧ enrollFormSubmit " S9 " "Bea" " " "" ([] : List ℤ) = none
    ∧ enrollFormSubmit " S9 " "Bea" " " "" ([3, 4] : List ℤ)
        = some ⟨trimStr " S9 ", trimStr "Bea", none, none, [3, 4]⟩
    ∧ enrollFormSubmit " S9 " "Bea" " CS-B " " 2027 " ([3, 4] : List ℤ)
        = some ⟨trimStr " S9 ", trimStr "Bea",
            some (trimStr " CS-B "), some (trimStr " 2027 "), [3, 4]⟩ :=
  enroll_validation_and_form "S9" "Bea" none none [7] cleanupStoreEx
    " S9 " "Bea" " " " CS-B " "" " 2027 " "  " " " [3, 4] [1] [2]
    (by decide) (by decide) (by decide) (by decide) (by decide) (by decide)
    (by decide) (by decide) (by decide) (by decide) (by decide)

/-- C9: login succeeds — returning no error, authenticating and persisting
the session flag — exactly when the trimmed, lowercased username is "i2it"
and the trimmed password is "student"; any other input yields the error
message and an unchanged state. -/
theorem login_hardcoded_credentials (st st2 st3 : AuthState)
    (u p u2 p2 u3 p3 : String)
    (hok : lowerStr (trimStr u) = VALID_USERNAME
      ∧ trimStr p = VALID_PASSWORD)
    (hbad : ¬(lowerStr (trimStr u2) = VALID_USERNAME
      ∧ trimStr p2 = VALID_PASSWORD))
    (hnull : (login st3 u3 p3).1 = none) :
    login st u p = (none, ⟨true, some "true"⟩)
    ∧ login st2 u2 p2 = (some "Invalid username or password.", st2)
    ∧ (lowerStr (trimStr u3) = VALID_USERNAME
        ∧ trimStr p3 = VALID_PASSWORD)
    ∧ (login st3 u3 p3).2 = ⟨true, some "true"⟩ := by
  have hc : lowerStr (trimStr u3) = VALID_USERNAME
      ∧ trimStr p3 = VALID_PASSWORD := by
    by_cases hc : lowerStr (trimStr u3) = VALID_USERNAME
        ∧ trimStr p3 = VALID_PASSWORD
    · exact hc
    · exfalso
      unfold login at hnull
      rw [if_neg hc] at hnull
      simp at hnull
  refine ⟨?_, ?_, hc, ?_⟩
  · unfold login
    rw [if_pos hok]
  · unfold login
    rw [if_neg hbad]
  · unfold login
    rw [if_pos hc]

theorem login_hardcoded_credentials_witness :
    login ⟨false, none⟩ " I2IT " " student " = (none, ⟨true, some "true"⟩)
    ∧ login ⟨false, none⟩ "admin" "secret"
        = (some "Invalid username or password.", ⟨false, none⟩)
    ∧ (lowerStr (trimStr "i2it") = VALID_USERNAME
        ∧ trimStr "student" = VALID_PASSWORD)
    ∧ (login ⟨false, none⟩ "i2it" "student").2 = ⟨true, some "true"⟩ :=
  login_hardcoded_credentials ⟨false, none⟩ ⟨false, none⟩ ⟨false, none⟩
    " I2IT " " student " "admin" "secret" "i2it" "student"
    (by decide) (by decide) (by decide)

/-- C10 counterexample: the dot-less file name "mp4" has no final
extension, so the stated rule rejects it, yet the page's split-then-pop
validation turns it into ".mp4" and accepts it. -/
theorem dotless_name_accepted_counterexample :
    isValidVideoFile "mp4" = true ∧ extensionAccepts "mp4" = false :=
  ⟨by decide, by decide⟩

/-- C10 (amended): a chosen file is accepted exactly when "." followed by
the lowercased maximal dot-free suffix of its name is an allowed
extension — the usual final-extension rule for names containing a dot,
while a dot-less name is accepted when the whole name lowercased matches an
allowed extension; an invalid file clears the selection into the error
state, any selection issues no network request, and acceptance consults
only the name, never the size. -/
theorem extension_validation_amended (name nmDot : String)
    (st : UploadPageState) (f g : VFile) (sz : Nat)
    (hdot : nmDot.toList.contains '.' = true)
    (hinv : isValidVideoFile f.name = false)
    (hval : isValidVideoFile g.name = true) :
    isValidVideoFile name
      = ALLOWED_VIDEO_EXTENSIONS.contains
          (String.mk ('.' :: (lastSegment '.' name.toList).map Char.toLower))
    ∧ isValidVideoFile nmDot = extensionAccepts nmDot
    ∧ (handleFileSelect st (some f)).1.selectedFile = none
    ∧ (handleFileSelect st (some f)).1.uploadStatus = .error
    ∧ (handleFileSelect st (some f)).2 = []
    ∧ (handleFileSelect st (some g)).1.selectedFile = some g
    ∧ (handleFileSelect st (some g)).2 = []
    ∧ isValidVideoFile (VFile.mk name sz).name = isValidVideoFile name := by
  have hfe : fileExtension nmDot
      = some (String.mk
          ((nmDot.toList.reverse.takeWhile fun c => !(c == '.')).reverse)) := by
    unfold fileExtension
    rw [if_pos hdot]
  refine ⟨isValidVideoFile_eq_lastSegment name, ?_, ?_, ?_, ?_, ?_, ?_, rfl⟩
  · unfold extensionAccepts
    rw [hfe, isValidVideoFile_eq_lastSegment]
    rfl
  · simp only [handleFileSelect]
    rw [if_pos hinv]
  · simp only [handleFileSelect]
    rw [if_pos hinv]
  · simp only [handleFileSelect]
    rw [if_pos hinv]
  · simp only [handleFileSelect]
    rw [if_neg (by simp [hval])]
  · simp only [handleFileSelect]
    rw [if_neg (by simp [hval])]

theorem extension_validation_amended_witness :
    isValidVideoFile "Video.MP4"
      = ALLOWED_VIDEO_EXTENSIONS.contains
          (String.mk ('.' :: (lastSegment '.' "Video.MP4".toList).map
            Char.toLower))
    ∧ isValidVideoFile "a.mp4" = extensionAccepts "a.mp4"
    ∧ (handleFileSelect upStateEx (some ⟨"notes.txt", 5⟩)).1.selectedFile
        = none
    ∧ (handleFileSelect upStateEx (some ⟨"notes.txt", 5⟩)).1.uploadStatus
        = .error
    ∧ (handleFileSelect upStateEx (some ⟨"notes.txt", 5⟩)).2 = []
    ∧ (handleFileSelect upStateEx (some ⟨"class.mp4", 7⟩)).1.selectedFile
        = some ⟨"class.mp4", 7⟩
    ∧ (handleFileSelect upStateEx (some ⟨"class.mp4", 7⟩)).2 = []
    ∧ isValidVideoFile (VFile.mk "Video.MP4" 42).name
        = isValidVideoFile "Video.MP4" :=
  extension_validation_amended "Video.MP4" "a.mp4" upStateEx
    ⟨"notes.txt", 5⟩ ⟨"class.mp4", 7⟩ 42 (by decide) (by decide) (by decide)

end LookIn
